import Mathlib

/-!
Verification of the apollo42 NFT minter contract core
(`src/apollo42-nft-contract/src/lib.rs`).

The contract state and every operation the claims touch are shallowly
embedded below.  NEAR SDK collections (`UnorderedMap`, `UnorderedSet`,
`HashMap`) are modelled as association lists / lists with the usual
lookup-insert-remove semantics; machine integers are modelled as `Nat`
(the contract crate family builds with the standard NEAR release profile
`overflow-checks = true`, so arithmetic overflow aborts the transaction;
abort is modelled as `Except.error`, and explicit guards stand in for the
checked operations where an overflow is reachable).  A panic / failed
`assert!` is `Except.error`; on the host an aborted call leaves the
persisted state untouched, which the `Except` encoding captures by not
returning a state on error.
-/

/-- Account identifiers (NEAR `AccountId`). -/
abbrev AccountId := String

/-- Token identifiers, e.g. `"1:2"` (series 1, edition 2). -/
abbrev TokenId := String

/-- Series identifiers (`TokenSeriesId = String` in the source). -/
abbrev TokenSeriesId := String

/-- Seconds-resolution timestamps (`TimestampSec = u32`). -/
abbrev TimestampSec := Nat

/-- Association-list lookup, modelling `UnorderedMap::get` / `HashMap::get`. -/
def alGet {α β : Type} [DecidableEq α] : List (α × β) → α → Option β
  | [], _ => none
  | (k2, v) :: t, k => if k2 = k then some v else alGet t k

/-- Association-list insert/replace, modelling `UnorderedMap::insert`. -/
def alInsert {α β : Type} [DecidableEq α] : List (α × β) → α → β → List (α × β)
  | [], k, v => [(k, v)]
  | (k2, v2) :: t, k, v => if k2 = k then (k, v) :: t else (k2, v2) :: alInsert t k v

/-- Association-list removal, modelling `LookupMap::remove`. -/
def alRemove {α β : Type} [DecidableEq α] (l : List (α × β)) (k : α) : List (α × β) :=
  l.filter (fun kv => decide (kv.1 ≠ k))

/-- Set insertion, modelling `UnorderedSet::insert` (append if absent). -/
def setInsert {α : Type} [DecidableEq α] (l : List α) (a : α) : List α :=
  if a ∈ l then l else l ++ [a]

/-- Sum of the values of an association list. -/
def valsSum {α : Type} (l : List (α × Nat)) : Nat :=
  (l.map Prod.snd).sum

/-- Whether an `Except` result is a success. -/
def exceptIsOk {ε α : Type} : Except ε α → Bool
  | .ok _ => true
  | .error _ => false

/-- Token metadata (`near_contract_standards` `TokenMetadata`): all fields
optional strings except `copies : Option u64`. -/
structure TokenMetadata where
  title : Option String
  description : Option String
  media : Option String
  media_hash : Option String
  copies : Option Nat
  issued_at : Option String
  expires_at : Option String
  starts_at : Option String
  updated_at : Option String
  extra : Option String
  reference : Option String
  reference_hash : Option String
  deriving Repr, DecidableEq

/-- A series record (`TokenSeries` in the source): template metadata, creator,
issued edition set, optional price, mintable flag and royalty table. -/
structure TokenSeries where
  metadata : TokenMetadata
  creator_id : AccountId
  tokens : List TokenId
  price : Option Nat
  is_mintable : Bool
  royalty : List (AccountId × Nat)
  deriving Repr, DecidableEq

/-- The staged fee schedule (`TransactionFee` in the source). -/
structure TransactionFee where
  next_fee : Option Nat
  start_time : Option TimestampSec
  current_fee : Nat
  deriving Repr, DecidableEq

/-- View record returned by `nft_create_series` (`TokenSeriesJson`). -/
structure TokenSeriesJson where
  token_series_id : TokenSeriesId
  metadata : TokenMetadata
  creator_id : AccountId
  royalty : List (AccountId × Nat)
  transaction_fee : Option Nat
  deriving Repr, DecidableEq

/-- Token view returned by `nft_token` (`Token` of the standard). -/
structure Token where
  token_id : TokenId
  owner_id : AccountId
  metadata : Option TokenMetadata
  approved_account_ids : Option (List (AccountId × Nat))
  deriving Repr, DecidableEq

/-- One emitted `nft_transfer` event record (`NearEvent::log_nft_transfer`). -/
structure TransferLog where
  old_owner_id : AccountId
  new_owner_id : AccountId
  token_ids : List TokenId
  memo : Option String
  authorized_id : Option AccountId
  deriving Repr, DecidableEq

/-- The ambient NEAR execution environment for one call. -/
structure Env where
  predecessor : AccountId
  current_account : AccountId
  block_timestamp : Nat
  attached_deposit : Nat
  deriving Repr, DecidableEq

/-- The contract state (`Contract` in the source; the embedded
`NonFungibleToken` ledger fields are inlined). -/
structure Contract where
  owner_id : AccountId
  owner_by_id : List (TokenId × AccountId)
  token_metadata_by_id : List (TokenId × TokenMetadata)
  approvals_by_id : List (TokenId × List (AccountId × Nat))
  next_approval_id_by_id : List (TokenId × Nat)
  tokens_per_owner : List (AccountId × List TokenId)
  token_series_by_id : List (TokenSeriesId × TokenSeries)
  treasury_id : AccountId
  transaction_fee : TransactionFee
  market_data_transaction_fee : List (TokenSeriesId × Nat)
  deriving Repr, DecidableEq

/-- Delimiter between series id and edition number (`TOKEN_DELIMETER`). -/
def TOKEN_DELIMETER : Char := ':'

/-- Price ceiling (`MAX_PRICE = 1_000_000_000 * 10^24`). -/
def MAX_PRICE : Nat := 1000000000 * 10 ^ 24

/-- The `u64::MAX` default used when a series has no copies cap. -/
def U64_MAX : Nat := 2 ^ 64 - 1

/-- Nanoseconds to seconds with the source's `as u32` cast (`to_sec`). -/
def to_sec (timestamp : Nat) : TimestampSec :=
  (timestamp / 10 ^ 9) % 2 ^ 32

/-- Series component of a token id: the part before the first `:`
(the source iterates `token_id.split(TOKEN_DELIMETER).next()`). -/
def seriesIdOf (token_id : TokenId) : TokenSeriesId :=
  String.mk (token_id.data.takeWhile (fun c => c != TOKEN_DELIMETER))

/-- Basis-point share with floor division (`royalty_to_payout`):
`a as u128 * b / 10_000u128`. -/
def royalty_to_payout (a : Nat) (b : Nat) : Nat :=
  a * b / 10000

/-- Host-side account-id validation (`near_sdk::env::is_valid_account_id`,
external to the contract source): 2–64 characters, lowercase alphanumerics
and single `-`, `_`, `.` separators, not at the start or end. -/
def is_valid_account_id (s : String) : Bool :=
  let cs := s.data
  if cs.length < 2 || 64 < cs.length then false
  else
    let step : Option Bool → Char → Option Bool := fun st c =>
      match st with
      | none => none
      | some lastSep =>
        if ('a' ≤ c && c ≤ 'z') || ('0' ≤ c && c ≤ '9') then some false
        else if c = '-' || c = '_' || c = '.' then
          if lastSep then none else some true
        else none
    match cs.foldl step (some true) with
    | none => false
    | some lastSep => !lastSep

/-- Fresh contract state as produced by `Contract::new` (only the fields the
core data model carries; the collections start empty). -/
def Contract.new (owner_id treasury_id : AccountId) (current_fee : Nat) : Contract :=
  { owner_id := owner_id
    owner_by_id := []
    token_metadata_by_id := []
    approvals_by_id := []
    next_approval_id_by_id := []
    tokens_per_owner := []
    token_series_by_id := []
    treasury_id := treasury_id
    transaction_fee := { next_fee := none, start_time := none, current_fee := current_fee }
    market_data_transaction_fee := [] }

/-- `calculate_current_transaction_fee`: lazily collapses a staged fee whose
activation time has passed into `current_fee`, clearing the stage, and
returns the (possibly updated) current fee.  `start_time.unwrap()` on a
stage with no start time is a panic. -/
def calculate_current_transaction_fee (st : Contract) (block_timestamp : Nat) :
    Except String (Nat × Contract) :=
  match st.transaction_fee.next_fee with
  | none => .ok (st.transaction_fee.current_fee, st)
  | some nf =>
    match st.transaction_fee.start_time with
    | none => .error "called Option::unwrap on a None value"
    | some start =>
      if start ≤ to_sec block_timestamp then
        let tf := { next_fee := none, start_time := none, current_fee := nf : TransactionFee }
        .ok (tf.current_fee, { st with transaction_fee := tf })
      else
        .ok (st.transaction_fee.current_fee, st)

/-- `set_transaction_fee`: owner-only (1 yoctoNEAR attached), `next_fee`
below 10000; immediate when no `start_time` is given (clearing any stage),
otherwise stages the fee for a strictly-future activation time. -/
def set_transaction_fee (env : Env) (st : Contract) (next_fee : Nat)
    (start_time : Option TimestampSec) : Except String Contract :=
  if env.attached_deposit ≠ 1 then
    .error "Requires attached deposit of exactly 1 yoctoNEAR"
  else if env.predecessor ≠ st.owner_id then
    .error "Owner only"
  else if 10000 ≤ next_fee then
    .error "Transaction fee is more than 10_000"
  else
    match start_time with
    | none =>
      .ok { st with transaction_fee := { next_fee := none, start_time := none, current_fee := next_fee } }
    | some start =>
      if to_sec env.block_timestamp < start then
        .ok { st with transaction_fee := { st.transaction_fee with next_fee := some next_fee, start_time := some start } }
      else
        .error "start_time is less than current block_timestamp"

/-- `nft_create_series`: validates the optional explicit creator, assigns the
next sequential series id, requires a title, validates the royalty table
(valid account ids, at most 10 entries — `total_accounts` — and basis-point
sum at most 5000 — `total_perpetual`; the u32 accumulation is exact here
because an overflowing sum aborts under checked arithmetic and the guard
already aborts), checks the price ceiling, persists the new series with an
empty edition set and `is_mintable = true`, snapshots the effective fee into
the per-series market fee map, and returns the series view.  Storage-cost
refunding and event emission are external collaborators (spec §1) and are
omitted. -/
def nft_create_series (env : Env) (st : Contract) (creator_id : Option AccountId)
    (token_metadata : TokenMetadata) (price : Option Nat)
    (royalty : Option (List (AccountId × Nat))) :
    Except String (TokenSeriesJson × Contract) :=
  let caller_id := env.predecessor
  if ∃ c, creator_id = some c ∧ c ≠ caller_id then
    .error "Caller is not creator_id"
  else
    let token_series_id : TokenSeriesId := Nat.repr (st.token_series_by_id.length + 1)
    if (alGet st.token_series_by_id token_series_id).isSome then
      .error "Duplicate token_series_id"
    else if token_metadata.title.isNone then
      .error "Token_metadata.title is required"
    else
      let royalty_res := royalty.getD []
      if ¬ royalty_res.all (fun kv => is_valid_account_id kv.1) then
        .error "Not valid account_id for royalty"
      else if 10 < royalty_res.length then
        .error "Royalty exceeds 10 accounts"
      else if 5000 < valsSum royalty_res then
        .error "Exceeds maximum royalty, 50 percent"
      else if ∃ p, price = some p ∧ MAX_PRICE ≤ p then
        .error "Price is higher than MAX_PRICE"
      else
        let series : TokenSeries :=
          { metadata := token_metadata
            creator_id := caller_id
            tokens := []
            price := price
            is_mintable := true
            royalty := royalty_res }
        let m1 := alInsert st.token_series_by_id token_series_id series
        let st1 := { st with token_series_by_id := m1 }
        match calculate_current_transaction_fee st1 env.block_timestamp with
        | .error e => .error e
        | .ok (current_transaction_fee, st2) =>
          let mf := alInsert st2.market_data_transaction_fee token_series_id current_transaction_fee
          let st3 := { st2 with market_data_transaction_fee := mf }
          .ok ({ token_series_id := token_series_id
                 metadata := token_metadata
                 creator_id := caller_id
                 royalty := royalty_res
                 transaction_fee := some current_transaction_fee }, st3)

/-- The copies cap used by `_nft_mint_series`:
`token_series.metadata.copies.unwrap_or(u64::MAX)`. -/
def maxCopies (ts : TokenSeries) : Nat :=
  ts.metadata.copies.getD U64_MAX

/-- `_nft_mint_series` (single mint step, reached via `nft_mint`, `nft_buy`
and `nft_mint_and_approve`): requires the series to exist and be mintable
and its issued count to be below the cap; the new edition number is
`num_tokens + 1`, and when that reaches the cap `is_mintable` is flipped
false within the same mutation; registers the edition id, owner, per-edition
metadata (only the mint timestamp) and the per-owner index. -/
def nft_mint_series (st : Contract) (block_timestamp : Nat)
    (token_series_id : TokenSeriesId) (receiver_id : AccountId) :
    Except String (TokenId × Contract) :=
  match alGet st.token_series_by_id token_series_id with
  | none => .error "Token series does not exist"
  | some token_series =>
    if ¬ token_series.is_mintable then
      .error "Token series is not mintable"
    else
      let num_tokens := token_series.tokens.length
      let max_copies := maxCopies token_series
      if ¬ num_tokens < max_copies then
        .error "Series supply maxed"
      else
        let token_series :=
          if max_copies ≤ num_tokens + 1 then
            { token_series with is_mintable := false }
          else token_series
        let token_id : TokenId :=
          token_series_id ++ String.singleton TOKEN_DELIMETER ++ Nat.repr (num_tokens + 1)
        let token_series := { token_series with tokens := setInsert token_series.tokens token_id }
        let m1 := alInsert st.token_series_by_id token_series_id token_series
        let st := { st with token_series_by_id := m1 }
        let metadata : TokenMetadata :=
          { title := none, description := none, media := none, media_hash := none
            copies := none, issued_at := some (Nat.repr block_timestamp)
            expires_at := none, starts_at := none, updated_at := none
            extra := none, reference := none, reference_hash := none }
        let owner_id := receiver_id
        let st := { st with
          owner_by_id := alInsert st.owner_by_id token_id owner_id
          token_metadata_by_id := alInsert st.token_metadata_by_id token_id metadata
          tokens_per_owner := alInsert st.tokens_per_owner owner_id
            (setInsert ((alGet st.tokens_per_owner owner_id).getD []) token_id) }
        .ok (token_id, st)

/-- `nft_set_series_non_mintable`: creator-only (1 yoctoNEAR), only while
still mintable and only for series with no copies cap. -/
def nft_set_series_non_mintable (env : Env) (st : Contract)
    (token_series_id : TokenSeriesId) : Except String Contract :=
  if env.attached_deposit ≠ 1 then
    .error "Requires attached deposit of exactly 1 yoctoNEAR"
  else
    match alGet st.token_series_by_id token_series_id with
    | none => .error "Token series not exist"
    | some token_series =>
      if env.predecessor ≠ token_series.creator_id then
        .error "Creator only"
      else if token_series.is_mintable ≠ true then
        .error "Already non-mintable"
      else if token_series.metadata.copies ≠ none then
        .error "Decrease supply if copies not null"
      else
        let m1 := alInsert st.token_series_by_id token_series_id
          { token_series with is_mintable := false }
        .ok { st with token_series_by_id := m1 }

/-- `nft_decrease_series_copies`: creator-only (1 yoctoNEAR); unwraps the
copies cap (a panic when the cap is absent), then checked-subtracts the
decrease (u64 underflow aborts), requires the new cap to be at least the
already-minted count, flips `is_mintable` false exactly when the new cap
equals the minted count, and stores the new cap. -/
def nft_decrease_series_copies (env : Env) (st : Contract)
    (token_series_id : TokenSeriesId) (decrease_copies : Nat) :
    Except String (Nat × Contract) :=
  if env.attached_deposit ≠ 1 then
    .error "Requires attached deposit of exactly 1 yoctoNEAR"
  else
    match alGet st.token_series_by_id token_series_id with
    | none => .error "Token series not exist"
    | some token_series =>
      if env.predecessor ≠ token_series.creator_id then
        .error "Creator only"
      else
        let minted_copies := token_series.tokens.length
        match token_series.metadata.copies with
        | none => .error "called Option::unwrap on a None value"
        | some copies =>
          if copies < decrease_copies then
            .error "attempt to subtract with overflow"
          else if ¬ minted_copies ≤ copies - decrease_copies then
            .error "Cannot decrease supply, already minted"
          else
            let token_series :=
              if copies - decrease_copies = minted_copies then
                { token_series with is_mintable := false }
              else token_series
            let token_series :=
              { token_series with metadata :=
                  { token_series.metadata with copies := some (copies - decrease_copies) } }
            let m1 := alInsert st.token_series_by_id token_series_id token_series
            .ok (copies - decrease_copies, { st with token_series_by_id := m1 })

/-- `nft_set_series_price`: creator-only (1 yoctoNEAR), only while mintable,
price below the ceiling; re-snapshots the effective fee into the per-series
market fee map. -/
def nft_set_series_price (env : Env) (st : Contract)
    (token_series_id : TokenSeriesId) (price : Option Nat) :
    Except String (Option Nat × Contract) :=
  if env.attached_deposit ≠ 1 then
    .error "Requires attached deposit of exactly 1 yoctoNEAR"
  else
    match alGet st.token_series_by_id token_series_id with
    | none => .error "Token series not exist"
    | some token_series =>
      if env.predecessor ≠ token_series.creator_id then
        .error "Creator only"
      else if token_series.is_mintable ≠ true then
        .error "Token series is not mintable"
      else if ∃ p, price = some p ∧ MAX_PRICE ≤ p then
        .error "Price is higher than MAX_PRICE"
      else
        let m1 := alInsert st.token_series_by_id token_series_id
          { token_series with price := price }
        let st1 := { st with token_series_by_id := m1 }
        match calculate_current_transaction_fee st1 env.block_timestamp with
        | .error e => .error e
        | .ok (current_transaction_fee, st2) =>
          let mf := alInsert st2.market_data_transaction_fee token_series_id current_transaction_fee
          .ok (price, { st2 with market_data_transaction_fee := mf })

/-- `nft_token`: returns `none` when no owner record exists; otherwise reads
the per-edition record and overlays the parent series' current template
fields (title, description, reference, media, copies, extra) at read time;
the internal `unwrap`s on a missing series or missing per-edition metadata
are panics. -/
def nft_token (st : Contract) (token_id : TokenId) : Except String (Option Token) :=
  match alGet st.owner_by_id token_id with
  | none => .ok none
  | some owner_id =>
    let approved_account_ids := some ((alGet st.approvals_by_id token_id).getD [])
    match alGet st.token_series_by_id (seriesIdOf token_id) with
    | none => .error "called Option::unwrap on a None value"
    | some series =>
      match alGet st.token_metadata_by_id token_id with
      | none => .error "called Option::unwrap on a None value"
      | some token_metadata =>
        let token_metadata :=
          { token_metadata with
            title := series.metadata.title
            description := series.metadata.description
            reference := series.metadata.reference
            media := series.metadata.media
            copies := series.metadata.copies
            extra := series.metadata.extra }
        .ok (some { token_id := token_id, owner_id := owner_id
                    metadata := some token_metadata
                    approved_account_ids := approved_account_ids })

/-- One iteration of the royalty loop shared by `nft_payout` and
`nft_transfer_payout`: accumulates `total_perpetual` and inserts the
floor share for every royalty party other than the owner. -/
def payoutStep (owner_id : AccountId) (balance : Nat)
    (acc : Nat × List (AccountId × Nat)) (kv : AccountId × Nat) :
    Nat × List (AccountId × Nat) :=
  if kv.1 ≠ owner_id then
    (acc.1 + kv.2, alInsert acc.2 kv.1 (royalty_to_payout kv.2 balance))
  else acc

/-- The royalty entries whose party is not the owner. -/
def nonOwnerEntries (royalty : List (AccountId × Nat)) (owner_id : AccountId) :
    List (AccountId × Nat) :=
  royalty.filter (fun kv => decide (kv.1 ≠ owner_id))

/-- Basis points consumed by royalty parties other than the owner
(`total_perpetual` at the end of the loop). -/
def consumedPoints (royalty : List (AccountId × Nat)) (owner_id : AccountId) : Nat :=
  valsSum (nonOwnerEntries royalty owner_id)

/-- The non-owner part of the payout: each such party gets
`floor(basis_points * balance / 10000)`. -/
def payoutList (royalty : List (AccountId × Nat)) (owner_id : AccountId)
    (balance : Nat) : List (AccountId × Nat) :=
  (nonOwnerEntries royalty owner_id).map (fun kv => (kv.1, royalty_to_payout kv.2 balance))

/-- `nft_payout`: query-only royalty split.  Requires the token to exist and
its series' royalty table to fit `max_len_payout`; every royalty party other
than the owner gets a floor basis-point share, and the owner is inserted
last with the share for `10000 - total_perpetual` basis points, again by
floor division (the u32 subtraction would abort if the consumed points
exceeded 10000; `Nat` truncation below is only reached in that aborting
region, which the theorems exclude by hypothesis). -/
def nft_payout (st : Contract) (token_id : TokenId) (balance : Nat)
    (max_len_payout : Nat) : Except String (List (AccountId × Nat)) :=
  match alGet st.owner_by_id token_id with
  | none => .error "No token id"
  | some owner_id =>
    match alGet st.token_series_by_id (seriesIdOf token_id) with
    | none => .error "no type"
    | some series =>
      let royalty := series.royalty
      if ¬ royalty.length ≤ max_len_payout then
        .error "Market cannot payout to that many receivers"
      else
        let r := royalty.foldl (payoutStep owner_id balance) (0, [])
        .ok (alInsert r.2 owner_id (royalty_to_payout (10000 - r.1) balance))

/-- Modelled from the spec: the authorization rule of the external ownership
ledger's transfer (near-contract-standards `internal_transfer`, not under
`src/`).  Spec §4.4: the caller is either the current owner or holds a
matching `approval_id`; a caller supplying no `approval_id` is only
authorized if it is the current owner (§4.4 tie-breaks). -/
def transferAuthorized (owner_id : AccountId)
    (approvals : Option (List (AccountId × Nat)))
    (sender_id : AccountId) (approval_id : Option Nat) : Bool :=
  if sender_id = owner_id then true
  else
    match approval_id with
    | none => false
    | some aid =>
      match approvals with
      | none => false
      | some aps =>
        match alGet aps sender_id with
        | none => false
        | some actual => actual = aid

/-- Modelled from the spec: the external ownership ledger's internal
transfer (near-contract-standards, not under `src/`).  Spec §4.4
`transfer_unsafe` phase: validates the caller is the current owner or holds
a matching approval, moves ownership immediately, clears the edition's
approval table, updates per-owner indices, and hands back the prior owner
and the prior approval table for possible restoration. -/
def internal_transfer (st : Contract) (sender_id receiver_id : AccountId)
    (token_id : TokenId) (approval_id : Option Nat) :
    Except String (AccountId × Option (List (AccountId × Nat)) × Contract) :=
  match alGet st.owner_by_id token_id with
  | none => .error "Token not found"
  | some owner_id =>
    let approvals := alGet st.approvals_by_id token_id
    if transferAuthorized owner_id approvals sender_id approval_id then
      let tpoSender := alInsert st.tokens_per_owner owner_id
        (((alGet st.tokens_per_owner owner_id).getD []).filter (fun t => t ≠ token_id))
      let tpo := alInsert tpoSender receiver_id
        (setInsert ((alGet tpoSender receiver_id).getD []) token_id)
      let st1 := { st with
        owner_by_id := alInsert st.owner_by_id token_id receiver_id
        approvals_by_id := alRemove st.approvals_by_id token_id
        tokens_per_owner := tpo }
      .ok (owner_id, approvals, st1)
    else
      .error "Sender not approved"

/-- `nft_transfer_payout`: 1 yoctoNEAR, reads the pre-transfer token view,
performs the single-phase ownership move, and — when a sale balance is
supplied — computes the royalty split against the pre-transfer owner
(`max_len_payout.unwrap()` is a panic when absent; the consumed points must
not exceed 10000).  Returns the optional payout, the new state, and the
emitted transfer record. -/
def nft_transfer_payout (env : Env) (st : Contract) (receiver_id : AccountId)
    (token_id : TokenId) (approval_id : Option Nat) (balance : Option Nat)
    (max_len_payout : Option Nat) :
    Except String (Option (List (AccountId × Nat)) × Contract × List TransferLog) :=
  if env.attached_deposit ≠ 1 then
    .error "Requires attached deposit of exactly 1 yoctoNEAR"
  else
    let sender_id := env.predecessor
    match nft_token st token_id with
    | .error e => .error e
    | .ok none => .error "no token"
    | .ok (some previous_token) =>
      match internal_transfer st sender_id receiver_id token_id approval_id with
      | .error e => .error e
      | .ok (_, _, st1) =>
        let previous_owner_id := previous_token.owner_id
        let payoutRes : Except String (Option (List (AccountId × Nat))) :=
          match balance with
          | none => .ok none
          | some balance_u128 =>
            match alGet st1.token_series_by_id (seriesIdOf token_id) with
            | none => .error "no type"
            | some series =>
              let royalty := series.royalty
              match max_len_payout with
              | none => .error "called Option::unwrap on a None value"
              | some ml =>
                if ¬ royalty.length ≤ ml then
                  .error "Market cannot payout to that many receivers"
                else
                  let r := royalty.foldl (payoutStep previous_owner_id balance_u128) (0, [])
                  if ¬ r.1 ≤ 10000 then
                    .error "Total payout overflow"
                  else
                    .ok (some (alInsert r.2 previous_owner_id
                      (royalty_to_payout (10000 - r.1) balance_u128)))
        match payoutRes with
        | .error e => .error e
        | .ok payout =>
          let authorized_id := if sender_id ≠ previous_owner_id then some sender_id else none
          .ok (payout, st1,
            [{ old_owner_id := previous_owner_id, new_owner_id := receiver_id
               token_ids := [token_id], memo := none, authorized_id := authorized_id }])

/-- Outcome of the receiver's acceptance hook (`nft_on_transfer` promise):
it resolved signalling keep, resolved signalling return-to-sender, or the
hook execution failed outright. -/
inductive HookOutcome where
  | accept
  | reject
  | failed
  deriving Repr, DecidableEq

/-- `nft_transfer_call` phase 1: 1 yoctoNEAR, internal transfer capturing the
prior owner and the prior approval table, emission of the transfer record,
and suspension (the scheduled hook plus the self-addressed
`nft_resolve_transfer` continuation are modelled by invoking
`nft_resolve_transfer` with the hook's `HookOutcome` afterwards). -/
def nft_transfer_call (env : Env) (st : Contract) (receiver_id : AccountId)
    (token_id : TokenId) (approval_id : Option Nat) (memo : Option String)
    (msg : String) :
    Except String (AccountId × Option (List (AccountId × Nat)) × Contract × List TransferLog) :=
  if env.attached_deposit ≠ 1 then
    .error "Requires attached deposit of exactly 1 yoctoNEAR"
  else
    let sender_id := env.predecessor
    match internal_transfer st sender_id receiver_id token_id approval_id with
    | .error e => .error e
    | .ok (previous_owner_id, old_approvals, st1) =>
      let authorized_id := if sender_id ≠ previous_owner_id then some sender_id else none
      let _ := msg
      .ok (previous_owner_id, old_approvals, st1,
        [{ old_owner_id := previous_owner_id, new_owner_id := receiver_id
           token_ids := [token_id], memo := memo, authorized_id := authorized_id }])

/-- Modelled from the spec: the external ownership ledger's resolve step
(near-contract-standards `nft_resolve_transfer`, not under `src/`).
Spec §4.4 phase 2: on accept, no further mutation (`true`); on reject or a
failed hook, if the edition's current owner still equals the post-phase-1
receiver, restore the prior owner and the prior approval table (`false`);
if a third party already re-transferred the edition, the rollback is
skipped and the state is left as-is (`true`). -/
def tokens_nft_resolve_transfer (st : Contract) (previous_owner_id receiver_id : AccountId)
    (token_id : TokenId) (approved_account_ids : Option (List (AccountId × Nat)))
    (outcome : HookOutcome) : Bool × Contract :=
  let must_revert := match outcome with
    | .accept => false
    | .reject => true
    | .failed => true
  if must_revert = false then (true, st)
  else
    match alGet st.owner_by_id token_id with
    | none => (true, st)
    | some current_owner =>
      if current_owner ≠ receiver_id then (true, st)
      else
        let tpoReceiver := alInsert st.tokens_per_owner receiver_id
          (((alGet st.tokens_per_owner receiver_id).getD []).filter (fun t => t ≠ token_id))
        let tpo := alInsert tpoReceiver previous_owner_id
          (setInsert ((alGet tpoReceiver previous_owner_id).getD []) token_id)
        let st1 := { st with
          owner_by_id := alInsert st.owner_by_id token_id previous_owner_id
          tokens_per_owner := tpo }
        let st2 := match approved_account_ids with
          | some aps => { st1 with approvals_by_id := alInsert st1.approvals_by_id token_id aps }
          | none => st1
        (false, st2)

/-- `nft_resolve_transfer` (the contract's resolver): `#[private]`, so only
the contract account itself may invoke it; delegates to the ledger's resolve
and, when the token was returned, emits the reversing transfer record
(receiver to prior owner). -/
def nft_resolve_transfer (env : Env) (st : Contract)
    (previous_owner_id receiver_id : AccountId) (token_id : TokenId)
    (approved_account_ids : Option (List (AccountId × Nat)))
    (outcome : HookOutcome) : Except String (Bool × Contract × List TransferLog) :=
  if env.predecessor ≠ env.current_account then
    .error "Method nft_resolve_transfer is private"
  else
    let r := tokens_nft_resolve_transfer st previous_owner_id receiver_id token_id
      approved_account_ids outcome
    if r.1 then
      .ok (true, r.2, [])
    else
      .ok (false, r.2,
        [{ old_owner_id := receiver_id, new_owner_id := previous_owner_id
           token_ids := [token_id], memo := none, authorized_id := none }])

/-- Contract states reachable from a fresh contract through the
state-mutating operations modelled above (the public entry points
`nft_mint`, `nft_buy`, `nft_mint_and_approve`, `nft_transfer`,
`nft_transfer_unsafe` factor through `nft_mint_series` /
`internal_transfer`, so their state effects are covered by these steps). -/
inductive Reachable : Contract → Prop where
  | init (owner_id treasury_id : AccountId) (current_fee : Nat) :
      Reachable (Contract.new owner_id treasury_id current_fee)
  | create {st st1 : Contract} {env creator_id token_metadata price royalty j} :
      Reachable st →
      nft_create_series env st creator_id token_metadata price royalty = .ok (j, st1) →
      Reachable st1
  | mint {st st1 : Contract} {block_timestamp token_series_id receiver_id token_id} :
      Reachable st →
      nft_mint_series st block_timestamp token_series_id receiver_id = .ok (token_id, st1) →
      Reachable st1
  | setNonMintable {st st1 : Contract} {env token_series_id} :
      Reachable st →
      nft_set_series_non_mintable env st token_series_id = .ok st1 →
      Reachable st1
  | decreaseCopies {st st1 : Contract} {env token_series_id decrease_copies c} :
      Reachable st →
      nft_decrease_series_copies env st token_series_id decrease_copies = .ok (c, st1) →
      Reachable st1
  | setPrice {st st1 : Contract} {env token_series_id price p} :
      Reachable st →
      nft_set_series_price env st token_series_id price = .ok (p, st1) →
      Reachable st1
  | setFee {st st1 : Contract} {env next_fee start_time} :
      Reachable st →
      set_transaction_fee env st next_fee start_time = .ok st1 →
      Reachable st1
  | feeAdvance {st st1 : Contract} {block_timestamp fee} :
      Reachable st →
      calculate_current_transaction_fee st block_timestamp = .ok (fee, st1) →
      Reachable st1
  | transferStep {st st1 : Contract} {sender_id receiver_id token_id approval_id po aps} :
      Reachable st →
      internal_transfer st sender_id receiver_id token_id approval_id = .ok (po, aps, st1) →
      Reachable st1
  | resolveStep {st : Contract} {previous_owner_id receiver_id token_id approved outcome} :
      Reachable st →
      Reachable (tokens_nft_resolve_transfer st previous_owner_id receiver_id token_id
        approved outcome).2

/-- The per-series royalty-table invariant of spec §3/§8. -/
def royaltyOk (ts : TokenSeries) : Prop :=
  ts.royalty.length ≤ 10 ∧ valsSum ts.royalty ≤ 5000

/-- Every registered series satisfies the royalty-table invariant. -/
def seriesInv (st : Contract) : Prop :=
  ∀ sid ts, alGet st.token_series_by_id sid = some ts → royaltyOk ts

/-- Concrete template metadata used by the witness states. -/
def mkMetadata (copies : Option Nat) : TokenMetadata :=
  { title := some "Tsundere land", description := some "a description"
    media := some "bafymedia", media_hash := none, copies := copies
    issued_at := none, expires_at := none, starts_at := none, updated_at := none
    extra := some "extra", reference := some "bafyreference", reference_hash := none }

/-- Concrete series record used by the witness states. -/
def mkSeries (copies : Option Nat) (tokens : List TokenId) (is_mintable : Bool)
    (royalty : List (AccountId × Nat)) : TokenSeries :=
  { metadata := mkMetadata copies, creator_id := "alice", tokens := tokens
    price := none, is_mintable := is_mintable, royalty := royalty }

/-- Concrete contract state used by the witness states. -/
def mkState (series : List (TokenSeriesId × TokenSeries))
    (owners : List (TokenId × AccountId))
    (mds : List (TokenId × TokenMetadata))
    (aps : List (TokenId × List (AccountId × Nat))) : Contract :=
  { owner_id := "contract-owner", owner_by_id := owners
    token_metadata_by_id := mds, approvals_by_id := aps
    next_approval_id_by_id := [], tokens_per_owner := []
    token_series_by_id := series, treasury_id := "treasury"
    transaction_fee := { next_fee := none, start_time := none, current_fee := 300 }
    market_data_transaction_fee := [] }

/-- Concrete environment used by the witness states. -/
def mkEnv (predecessor current_account : AccountId) (block_timestamp attached_deposit : Nat) :
    Env :=
  { predecessor := predecessor, current_account := current_account
    block_timestamp := block_timestamp, attached_deposit := attached_deposit }

theorem alGet_alInsert {α β : Type} [DecidableEq α] (l : List (α × β)) (k q : α) (v : β) :
    alGet (alInsert l k v) q = if k = q then some v else alGet l q := by
  induction l with
  | nil => simp [alGet, alInsert]
  | cons kv t ih =>
    obtain ⟨k2, v2⟩ := kv
    by_cases hk2 : k2 = k
    · subst hk2
      simp only [alInsert, if_pos rfl]
      by_cases hq : k2 = q
      · subst hq; simp [alGet]
      · simp [alGet, hq]
    · simp only [alInsert, if_neg hk2]
      by_cases hq : k2 = q
      · subst hq
        have hne : k ≠ k2 := fun h => hk2 (Eq.symm h)
        simp [alGet, if_neg hne]
      · simp [alGet, hq, ih]

theorem alGet_alInsert_self {α β : Type} [DecidableEq α] (l : List (α × β)) (k : α) (v : β) :
    alGet (alInsert l k v) k = some v := by
  simp [alGet_alInsert]

theorem alInsert_of_alGet_none {α β : Type} [DecidableEq α] {l : List (α × β)} {k : α}
    (h : alGet l k = none) (v : β) : alInsert l k v = l ++ [(k, v)] := by
  induction l with
  | nil => simp [alInsert]
  | cons kv t ih =>
    obtain ⟨k2, v2⟩ := kv
    simp only [alGet] at h
    by_cases hk : k2 = k
    · simp [hk] at h
    · simp only [alInsert, if_neg hk, List.cons_append, List.cons.injEq, true_and]
      exact ih (by simpa [hk] using h)

theorem alGet_append {α β : Type} [DecidableEq α] (l1 l2 : List (α × β)) (k : α) :
    alGet (l1 ++ l2) k =
      match alGet l1 k with
      | some v => some v
      | none => alGet l2 k := by
  induction l1 with
  | nil => simp [alGet]
  | cons kv t ih =>
    obtain ⟨k2, v2⟩ := kv
    by_cases hk : k2 = k
    · simp [alGet, hk]
    · simp [alGet, hk, ih]

theorem alGet_eq_none_of_forall {α β : Type} [DecidableEq α] {l : List (α × β)} {k : α}
    (h : ∀ kv ∈ l, kv.1 ≠ k) : alGet l k = none := by
  induction l with
  | nil => rfl
  | cons kv t ih =>
    obtain ⟨k2, v2⟩ := kv
    have hk : k2 ≠ k := h (k2, v2) (by simp)
    simp only [alGet, if_neg hk]
    exact ih (fun kv hm => h kv (by simp [hm]))

theorem valsSum_nil {α : Type} : valsSum ([] : List (α × Nat)) = 0 := rfl

theorem valsSum_cons {α : Type} (kv : α × Nat) (l : List (α × Nat)) :
    valsSum (kv :: l) = kv.2 + valsSum l := by
  simp [valsSum]

theorem valsSum_append {α : Type} (l1 l2 : List (α × Nat)) :
    valsSum (l1 ++ l2) = valsSum l1 + valsSum l2 := by
  simp [valsSum]

theorem div_add_div_le (a b n : Nat) (hn : 0 < n) : a / n + b / n ≤ (a + b) / n := by
  rw [Nat.le_div_iff_mul_le hn, Nat.add_mul]
  exact Nat.add_le_add (Nat.div_mul_le_self a n) (Nat.div_mul_le_self b n)

/-- C2: with a staged fee in place, a read strictly before the activation
time returns the old `current_fee` and leaves the stage untouched; a read at
or after it returns the staged fee with `current_fee` updated and both
`next_fee` and `start_time` cleared, so the staged change activates exactly
once. -/
theorem fee_schedule_lazy_activation (st : Contract) (block_timestamp : Nat)
    (nf : Nat) (start : TimestampSec)
    (hn : st.transaction_fee.next_fee = some nf)
    (ht : st.transaction_fee.start_time = some start) :
    (to_sec block_timestamp < start →
      calculate_current_transaction_fee st block_timestamp =
        .ok (st.transaction_fee.current_fee, st))
    ∧ (start ≤ to_sec block_timestamp →
      calculate_current_transaction_fee st block_timestamp =
        .ok (nf, { st with transaction_fee :=
          { next_fee := none, start_time := none, current_fee := nf } })) := by
  constructor
  · intro h
    simp only [calculate_current_transaction_fee, hn, ht]
    rw [if_neg (Nat.not_le.mpr h)]
  · intro h
    simp only [calculate_current_transaction_fee, hn, ht]
    rw [if_pos h]

/-- C2 witness: stage `(next_fee := 100, start_time := 10)` over a current
fee of 300; a read at 5s keeps 300 and the stage, a read at 10s returns 100
and clears the stage. -/
theorem fee_schedule_lazy_activation_witness :
    calculate_current_transaction_fee
      { Contract.new "o" "t" 300 with transaction_fee :=
          { next_fee := some 100, start_time := some 10, current_fee := 300 } }
      5000000000 =
      .ok (300, { Contract.new "o" "t" 300 with transaction_fee :=
        { next_fee := some 100, start_time := some 10, current_fee := 300 } })
    ∧ calculate_current_transaction_fee
      { Contract.new "o" "t" 300 with transaction_fee :=
          { next_fee := some 100, start_time := some 10, current_fee := 300 } }
      10000000000 =
      .ok (100, { Contract.new "o" "t" 300 with transaction_fee :=
        { next_fee := none, start_time := none, current_fee := 100 } }) := by
  constructor
  · exact (fee_schedule_lazy_activation _ 5000000000 100 10 rfl rfl).1 (by decide)
  · exact (fee_schedule_lazy_activation _ 10000000000 100 10 rfl rfl).2 (by decide)

/-- C8: `set_transaction_fee` succeeds only for the contract owner with
`next_fee` below 10000; with no start time the change is immediate and any
stage is cleared; with a start time that is not strictly in the future the
call aborts; with a strictly-future start time only the stage is written and
`current_fee` is untouched. -/
theorem set_fee_guards_and_staging (env : Env) (st : Contract) (next_fee : Nat)
    (start_time : Option TimestampSec) :
    (∀ st1, set_transaction_fee env st next_fee start_time = .ok st1 →
      env.predecessor = st.owner_id ∧ next_fee < 10000)
    ∧ (env.attached_deposit = 1 → env.predecessor = st.owner_id → next_fee < 10000 →
      (set_transaction_fee env st next_fee none =
        .ok { st with transaction_fee :=
          { next_fee := none, start_time := none, current_fee := next_fee } })
      ∧ (∀ start, ¬ to_sec env.block_timestamp < start →
          exceptIsOk (set_transaction_fee env st next_fee (some start)) = false)
      ∧ (∀ start, to_sec env.block_timestamp < start →
          set_transaction_fee env st next_fee (some start) =
            .ok { st with transaction_fee :=
              { st.transaction_fee with
                next_fee := some next_fee, start_time := some start } })) := by
  constructor
  · intro st1 h
    simp only [set_transaction_fee] at h
    split_ifs at h with h1 h2 h3
    all_goals
      first
      | exact Except.noConfusion h
      | exact ⟨not_not.mp h2, by omega⟩
  · intro hdep hpred hnf
    have h1 : ¬ env.attached_deposit ≠ 1 := by simp [hdep]
    have h2 : ¬ env.predecessor ≠ st.owner_id := by simp [hpred]
    have h3 : ¬ 10000 ≤ next_fee := by omega
    refine ⟨?_, ?_, ?_⟩
    · simp only [set_transaction_fee, if_neg h1, if_neg h2, if_neg h3]
    · intro start hlt
      simp only [set_transaction_fee, if_neg h1, if_neg h2, if_neg h3, if_neg hlt]
      rfl
    · intro start hlt
      simp only [set_transaction_fee, if_neg h1, if_neg h2, if_neg h3, if_pos hlt]

/-- C8 witness: the owner immediately sets fee 100 with no start time, a
past start time aborts, and a future start time stages without touching
`current_fee`. -/
theorem set_fee_guards_and_staging_witness :
    (set_transaction_fee (mkEnv "o" "c" 5000000000 1) (Contract.new "o" "t" 300) 100 none =
      .ok { Contract.new "o" "t" 300 with transaction_fee :=
        { next_fee := none, start_time := none, current_fee := 100 } })
    ∧ exceptIsOk (set_transaction_fee (mkEnv "o" "c" 5000000000 1)
        (Contract.new "o" "t" 300) 100 (some 5)) = false
    ∧ set_transaction_fee (mkEnv "o" "c" 5000000000 1) (Contract.new "o" "t" 300) 100 (some 9) =
      .ok { Contract.new "o" "t" 300 with transaction_fee :=
        { next_fee := some 100, start_time := some 9,
          current_fee := (Contract.new "o" "t" 300).transaction_fee.current_fee } } := by
  refine ⟨?_, ?_, ?_⟩
  · exact ((set_fee_guards_and_staging (mkEnv "o" "c" 5000000000 1)
      (Contract.new "o" "t" 300) 100 none).2 rfl rfl (by decide)).1
  · exact ((set_fee_guards_and_staging (mkEnv "o" "c" 5000000000 1)
      (Contract.new "o" "t" 300) 100 (some 5)).2 rfl rfl (by decide)).2.1 5 (by decide)
  · exact ((set_fee_guards_and_staging (mkEnv "o" "c" 5000000000 1)
      (Contract.new "o" "t" 300) 100 (some 9)).2 rfl rfl (by decide)).2.2 9 (by decide)

theorem payout_fold_char (own : AccountId) (B : Nat) :
    ∀ (roy : List (AccountId × Nat)) (c : Nat) (m : List (AccountId × Nat)),
      (∀ kv ∈ roy, kv.1 ≠ own → alGet m kv.1 = none) →
      (roy.map Prod.fst).Nodup →
      roy.foldl (payoutStep own B) (c, m) =
        (c + consumedPoints roy own, m ++ payoutList roy own B) := by
  intro roy
  induction roy with
  | nil =>
    intro c m _ _
    simp [consumedPoints, nonOwnerEntries, payoutList, valsSum]
  | cons kv t ih =>
    intro c m hfresh hnd
    obtain ⟨k, v⟩ := kv
    have hnd2 : (k ∉ t.map Prod.fst) ∧ (t.map Prod.fst).Nodup := by
      rw [List.map_cons, List.nodup_cons] at hnd
      exact hnd
    simp only [List.foldl_cons]
    by_cases hk : k = own
    · subst hk
      have hstep : payoutStep k B (c, m) (k, v) = (c, m) := by simp [payoutStep]
      rw [hstep, ih c m (fun kv2 hm2 hne2 => hfresh kv2 (List.mem_cons_of_mem _ hm2) hne2)
        hnd2.2]
      have hdrop : nonOwnerEntries ((k, v) :: t) k = nonOwnerEntries t k := by
        simp [nonOwnerEntries]
      rw [show consumedPoints ((k, v) :: t) k = consumedPoints t k from by
            simp [consumedPoints, hdrop],
          show payoutList ((k, v) :: t) k B = payoutList t k B from by
            simp [payoutList, hdrop]]
    · have hstep : payoutStep own B (c, m) (k, v) =
          (c + v, alInsert m k (royalty_to_payout v B)) := by
        simp [payoutStep, hk]
      rw [hstep]
      have hmk : alGet m k = none := hfresh (k, v) (by simp) hk
      rw [alInsert_of_alGet_none hmk]
      have hcond : ∀ kv2 ∈ t, kv2.1 ≠ own →
          alGet (m ++ [(k, royalty_to_payout v B)]) kv2.1 = none := by
        intro kv2 hm2 hne2
        rw [alGet_append, hfresh kv2 (List.mem_cons_of_mem _ hm2) hne2]
        have hne3 : ¬ k = kv2.1 := by
          intro heq
          exact hnd2.1 (heq ▸ List.mem_map_of_mem Prod.fst hm2)
        simp [alGet, hne3]
      rw [ih (c + v) _ hcond hnd2.2]
      have hcons : nonOwnerEntries ((k, v) :: t) own = (k, v) :: nonOwnerEntries t own := by
        simp [nonOwnerEntries, hk]
      rw [show consumedPoints ((k, v) :: t) own = v + consumedPoints t own from by
            simp [consumedPoints, hcons, valsSum_cons],
          show payoutList ((k, v) :: t) own B =
              (k, royalty_to_payout v B) :: payoutList t own B from by
            simp [payoutList, hcons]]
      rw [List.append_assoc, List.singleton_append, Nat.add_assoc]

theorem alGet_payoutList_owner (roy : List (AccountId × Nat)) (own : AccountId) (B : Nat) :
    alGet (payoutList roy own B) own = none := by
  apply alGet_eq_none_of_forall
  intro kv hm
  simp only [payoutList, List.mem_map] at hm
  obtain ⟨kv2, hm2, rfl⟩ := hm
  simp only [nonOwnerEntries, List.mem_filter] at hm2
  exact of_decide_eq_true hm2.2

theorem royalty_to_payout_add_le (a b B : Nat) :
    royalty_to_payout a B + royalty_to_payout b B ≤ royalty_to_payout (a + b) B := by
  unfold royalty_to_payout
  rw [Nat.add_mul]
  exact div_add_div_le _ _ _ (by norm_num)

theorem valsSum_payoutList_le (roy : List (AccountId × Nat)) (own : AccountId) (B : Nat) :
    valsSum (payoutList roy own B) ≤ royalty_to_payout (consumedPoints roy own) B := by
  unfold payoutList consumedPoints
  generalize nonOwnerEntries roy own = l
  induction l with
  | nil => simp [valsSum, royalty_to_payout]
  | cons kv t ih =>
    rw [List.map_cons, valsSum_cons, valsSum_cons]
    calc royalty_to_payout kv.2 B + valsSum (t.map (fun kv => (kv.1, royalty_to_payout kv.2 B)))
        ≤ royalty_to_payout kv.2 B + royalty_to_payout (valsSum t) B :=
          Nat.add_le_add_left ih _
      _ ≤ royalty_to_payout (kv.2 + valsSum t) B := royalty_to_payout_add_le _ _ _

/-- C1 (amended): the payout returned by `nft_payout` gives every royalty
party other than the owner `floor(basis_points * balance / 10000)` and the
owner `floor((10000 - consumed) * balance / 10000)` — the owner share is
computed by the same floor division rather than as an exact remainder, so
the values sum to at most `balance`, with equality only when the divisions
are exact. -/
theorem nft_payout_floor_split (st : Contract) (token_id : TokenId)
    (balance max_len_payout : Nat) (own : AccountId) (ts : TokenSeries)
    (hown : alGet st.owner_by_id token_id = some own)
    (hts : alGet st.token_series_by_id (seriesIdOf token_id) = some ts)
    (hlen : ts.royalty.length ≤ max_len_payout)
    (hnd : (ts.royalty.map Prod.fst).Nodup)
    (hcp : consumedPoints ts.royalty own ≤ 10000) :
    nft_payout st token_id balance max_len_payout =
      .ok (payoutList ts.royalty own balance ++
        [(own, royalty_to_payout (10000 - consumedPoints ts.royalty own) balance)])
    ∧ valsSum (payoutList ts.royalty own balance ++
        [(own, royalty_to_payout (10000 - consumedPoints ts.royalty own) balance)])
      ≤ balance := by
  constructor
  · simp only [nft_payout, hown, hts]
    rw [if_neg (not_not_intro hlen),
      payout_fold_char own balance ts.royalty 0 [] (fun kv _ _ => rfl) hnd]
    simp only [Nat.zero_add, List.nil_append]
    rw [alInsert_of_alGet_none (alGet_payoutList_owner ts.royalty own balance)]
  · rw [valsSum_append]
    have h1 := valsSum_payoutList_le ts.royalty own balance
    have h2 : valsSum [(own, royalty_to_payout (10000 - consumedPoints ts.royalty own) balance)]
        = royalty_to_payout (10000 - consumedPoints ts.royalty own) balance := by
      simp [valsSum]
    rw [h2]
    calc valsSum (payoutList ts.royalty own balance) +
          royalty_to_payout (10000 - consumedPoints ts.royalty own) balance
        ≤ royalty_to_payout (consumedPoints ts.royalty own) balance +
          royalty_to_payout (10000 - consumedPoints ts.royalty own) balance :=
          Nat.add_le_add_right h1 _
      _ ≤ royalty_to_payout (consumedPoints ts.royalty own +
            (10000 - consumedPoints ts.royalty own)) balance :=
          royalty_to_payout_add_le _ _ _
      _ = royalty_to_payout 10000 balance := by
          rw [Nat.add_sub_cancel' hcp]
      _ = balance := Nat.mul_div_cancel_left balance (by norm_num)

/-- C1 counterexample: with royalty `{alice: 1}`, owner `bob` and a sale
amount of 1, every entry floors to 0, so the payout sums to 0, not to the
sale amount — the original exact-sum claim is false on the code. -/
theorem nft_payout_not_exact_cex :
    nft_payout (mkState [("1", mkSeries none [] true [("alice", 1)])] [("1:1", "bob")] [] [])
      "1:1" 1 10 = .ok [("alice", 0), ("bob", 0)]
    ∧ valsSum [("alice", 0), ("bob", 0)] ≠ 1 := by
  exact ⟨rfl, by decide⟩

/-- C1 witness (the spec's own scenario): royalty `{alice: 1000}`, owner
`bob`, sale 1,000,000 gives `{alice: 100000, bob: 900000}`, summing below or
equal to the sale amount. -/
theorem nft_payout_floor_split_witness :
    nft_payout (mkState [("1", mkSeries none [] true [("alice", 1000)])] [("1:1", "bob")] [] [])
      "1:1" 1000000 10 = .ok [("alice", 100000), ("bob", 900000)]
    ∧ 100000 + 900000 ≤ 1000000 := by
  have h := nft_payout_floor_split
    (mkState [("1", mkSeries none [] true [("alice", 1000)])] [("1:1", "bob")] [] [])
    "1:1" 1000000 10 "bob" (mkSeries none [] true [("alice", 1000)])
    rfl rfl (by decide) (by decide) (by decide)
  exact ⟨h.1.trans rfl, by decide⟩

/-- C3: minting an edition (via `_nft_mint_series`, reached from `nft_mint`,
`nft_buy`, `nft_mint_and_approve`) fails when the series is absent, not
mintable, or already at its copies cap; otherwise the new edition is number
`issued + 1`, the issued count afterwards is `issued + 1 ≤ max_copies`, and
`is_mintable` is flipped false within the same mutation exactly when the cap
is reached. -/
theorem mint_cap_invariant (st : Contract) (block_timestamp : Nat)
    (sid : TokenSeriesId) (receiver_id : AccountId) :
    (alGet st.token_series_by_id sid = none →
      exceptIsOk (nft_mint_series st block_timestamp sid receiver_id) = false)
    ∧ (∀ ts, alGet st.token_series_by_id sid = some ts → ts.is_mintable = false →
      exceptIsOk (nft_mint_series st block_timestamp sid receiver_id) = false)
    ∧ (∀ ts m, alGet st.token_series_by_id sid = some ts → ts.metadata.copies = some m →
      m ≤ ts.tokens.length →
      exceptIsOk (nft_mint_series st block_timestamp sid receiver_id) = false)
    ∧ (∀ ts, alGet st.token_series_by_id sid = some ts → ts.is_mintable = true →
      ts.tokens.length < maxCopies ts →
      (sid ++ String.singleton TOKEN_DELIMETER ++ Nat.repr (ts.tokens.length + 1)) ∉ ts.tokens →
      ((nft_mint_series st block_timestamp sid receiver_id).map
        (fun r => (r.1, (alGet r.2.token_series_by_id sid).map
          (fun ts1 => (ts1.tokens.length, ts1.is_mintable)))) =
        .ok (sid ++ String.singleton TOKEN_DELIMETER ++ Nat.repr (ts.tokens.length + 1),
          some (ts.tokens.length + 1,
            if maxCopies ts ≤ ts.tokens.length + 1 then false else true))
      ∧ (∀ m, ts.metadata.copies = some m → ts.tokens.length + 1 ≤ m))) := by
  refine ⟨?_, ?_, ?_, ?_⟩
  · intro h
    simp [nft_mint_series, h, exceptIsOk]
  · intro ts hts hm
    simp [nft_mint_series, hts, hm, exceptIsOk]
  · intro ts m hts hc hlen
    simp only [nft_mint_series, hts]
    have hmax : maxCopies ts = m := by simp [maxCopies, hc]
    have hnl : ¬ ts.tokens.length < maxCopies ts := by rw [hmax]; omega
    by_cases hm : ts.is_mintable
    · rw [if_neg (not_not_intro hm), if_pos hnl]
      rfl
    · rw [if_pos ?_]
      · rfl
      · simp [hm]
  · intro ts hts hmint hlt hfresh
    constructor
    · simp only [nft_mint_series, hts]
      rw [if_neg (not_not_intro hmint), if_neg (not_not_intro hlt)]
      by_cases hfull : maxCopies ts ≤ ts.tokens.length + 1
      · rw [if_pos hfull, if_pos hfull]
        simp only [Except.map, alGet_alInsert_self, Option.map, setInsert, if_neg hfresh]
        simp [List.length_append]
      · rw [if_neg hfull, if_neg hfull]
        simp only [Except.map, alGet_alInsert_self, Option.map, setInsert, if_neg hfresh]
        simp [List.length_append, hmint]
    · intro m hc
      have hmax : maxCopies ts = m := by simp [maxCopies, hc]
      omega

/-- C3 witness (the spec's own scenario): a series with `max_copies = 1`
mints once, yielding edition `1:1` with count 1 and mintability off; a
second mint on the now non-mintable series fails. -/
theorem mint_cap_invariant_witness :
    ((nft_mint_series (mkState [("1", mkSeries (some 1) [] true [])] [] [] []) 7 "1" "bob").map
      (fun r => (r.1, (alGet r.2.token_series_by_id "1").map
        (fun ts1 => (ts1.tokens.length, ts1.is_mintable)))) = .ok ("1:1", some (1, false)))
    ∧ exceptIsOk (nft_mint_series
        (mkState [("1", mkSeries (some 1) ["1:1"] false [])] [] [] []) 7 "1" "bob") = false := by
  constructor
  · exact ((mint_cap_invariant (mkState [("1", mkSeries (some 1) [] true [])] [] [] [])
      7 "1" "bob").2.2.2 (mkSeries (some 1) [] true []) rfl rfl (by decide)
      (by decide)).1.trans rfl
  · exact (mint_cap_invariant (mkState [("1", mkSeries (some 1) ["1:1"] false [])] [] [] [])
      7 "1" "bob").2.1 (mkSeries (some 1) ["1:1"] false []) rfl rfl

/-- C6: for a finite-cap series, a creator call of
`nft_decrease_series_copies` fails whenever the cap minus the decrease falls
below the already-minted count (including when the decrease exceeds the cap,
where the checked u64 subtraction aborts); when it equals the minted count
the call succeeds, stores the new cap and flips `is_mintable` false; when it
stays strictly above, the call succeeds, stores the new cap and leaves
`is_mintable` as it was.  An aborted call returns no state (the host
discards all writes). -/
theorem decrease_cap_props (env : Env) (st : Contract) (sid : TokenSeriesId) (d : Nat)
    (ts : TokenSeries) (m : Nat)
    (hts : alGet st.token_series_by_id sid = some ts)
    (hc : ts.metadata.copies = some m)
    (hpred : env.predecessor = ts.creator_id)
    (hdep : env.attached_deposit = 1) :
    (m < d → exceptIsOk (nft_decrease_series_copies env st sid d) = false)
    ∧ (d ≤ m → m - d < ts.tokens.length →
      exceptIsOk (nft_decrease_series_copies env st sid d) = false)
    ∧ (d ≤ m → m - d = ts.tokens.length →
      (nft_decrease_series_copies env st sid d).map
        (fun r => (r.1, (alGet r.2.token_series_by_id sid).map
          (fun ts1 => (ts1.metadata.copies, ts1.is_mintable)))) =
        .ok (m - d, some (some (m - d), false)))
    ∧ (d ≤ m → ts.tokens.length < m - d →
      (nft_decrease_series_copies env st sid d).map
        (fun r => (r.1, (alGet r.2.token_series_by_id sid).map
          (fun ts1 => (ts1.metadata.copies, ts1.is_mintable)))) =
        .ok (m - d, some (some (m - d), ts.is_mintable))) := by
  have h1 : ¬ env.attached_deposit ≠ 1 := by simp [hdep]
  have h2 : ¬ env.predecessor ≠ ts.creator_id := not_not_intro hpred
  refine ⟨?_, ?_, ?_, ?_⟩
  · intro hlt
    simp only [nft_decrease_series_copies, if_neg h1, hts, if_neg h2, hc,
      if_pos hlt]
    rfl
  · intro hdm hlen
    simp only [nft_decrease_series_copies, if_neg h1, hts, if_neg h2, hc,
      if_neg (by omega : ¬ m < d), if_pos (by omega : ¬ ts.tokens.length ≤ m - d)]
    rfl
  · intro hdm heq
    simp only [nft_decrease_series_copies, if_neg h1, hts, if_neg h2, hc,
      if_neg (by omega : ¬ m < d), if_neg (by omega : ¬ ¬ ts.tokens.length ≤ m - d),
      if_pos heq, Except.map, alGet_alInsert_self, Option.map]
  · intro hdm hlen
    simp only [nft_decrease_series_copies, if_neg h1, hts, if_neg h2, hc,
      if_neg (by omega : ¬ m < d), if_neg (by omega : ¬ ¬ ts.tokens.length ≤ m - d),
      if_neg (by omega : ¬ m - d = ts.tokens.length), Except.map, alGet_alInsert_self,
      Option.map]

/-- C6 witness (the spec's own scenario): cap 5 with 1 edition minted;
decreasing by 5 (below the minted count) fails, decreasing by 4 (exactly the
minted count) succeeds with the new cap 1 and mintability off, decreasing by
2 keeps mintability on. -/
theorem decrease_cap_props_witness :
    exceptIsOk (nft_decrease_series_copies (mkEnv "alice" "c" 0 1)
      (mkState [("1", mkSeries (some 5) ["1:1"] true [])] [("1:1", "bob")] [] []) "1" 5) = false
    ∧ (nft_decrease_series_copies (mkEnv "alice" "c" 0 1)
        (mkState [("1", mkSeries (some 5) ["1:1"] true [])] [("1:1", "bob")] [] []) "1" 4).map
        (fun r => (r.1, (alGet r.2.token_series_by_id "1").map
          (fun ts1 => (ts1.metadata.copies, ts1.is_mintable)))) =
        .ok (1, some (some 1, false))
    ∧ (nft_decrease_series_copies (mkEnv "alice" "c" 0 1)
        (mkState [("1", mkSeries (some 5) ["1:1"] true [])] [("1:1", "bob")] [] []) "1" 2).map
        (fun r => (r.1, (alGet r.2.token_series_by_id "1").map
          (fun ts1 => (ts1.metadata.copies, ts1.is_mintable)))) =
        .ok (3, some (some 3, true)) := by
  refine ⟨?_, ?_, ?_⟩
  · exact (decrease_cap_props (mkEnv "alice" "c" 0 1)
      (mkState [("1", mkSeries (some 5) ["1:1"] true [])] [("1:1", "bob")] [] []) "1" 5
      (mkSeries (some 5) ["1:1"] true []) 5 rfl rfl rfl rfl).2.1 (by decide) (by decide)
  · exact ((decrease_cap_props (mkEnv "alice" "c" 0 1)
      (mkState [("1", mkSeries (some 5) ["1:1"] true [])] [("1:1", "bob")] [] []) "1" 4
      (mkSeries (some 5) ["1:1"] true []) 5 rfl rfl rfl rfl).2.2.1 (by decide)
      (by decide)).trans rfl
  · exact ((decrease_cap_props (mkEnv "alice" "c" 0 1)
      (mkState [("1", mkSeries (some 5) ["1:1"] true [])] [("1:1", "bob")] [] []) "1" 2
      (mkSeries (some 5) ["1:1"] true []) 5 rfl rfl rfl rfl).2.2.2 (by decide)
      (by decide)).trans rfl

/-- C10: for a series whose template metadata has no copies cap,
`nft_decrease_series_copies` always aborts, for every caller, deposit and
decrease amount — the absent cap is unwrapped unconditionally, so cap
decrease is only defined for finite-cap series. -/
theorem decrease_cap_requires_finite_cap (env : Env) (st : Contract)
    (sid : TokenSeriesId) (d : Nat) (ts : TokenSeries)
    (hts : alGet st.token_series_by_id sid = some ts)
    (hc : ts.metadata.copies = none) :
    exceptIsOk (nft_decrease_series_copies env st sid d) = false := by
  by_cases h1 : env.attached_deposit ≠ 1
  · simp [nft_decrease_series_copies, if_pos h1, exceptIsOk]
  · by_cases h2 : env.predecessor ≠ ts.creator_id
    · simp [nft_decrease_series_copies, if_neg h1, hts, if_pos h2, exceptIsOk]
    · simp [nft_decrease_series_copies, if_neg h1, hts, if_neg h2, hc, exceptIsOk]

/-- C10 witness: even the series creator with the right deposit cannot
decrease an uncapped series. -/
theorem decrease_cap_requires_finite_cap_witness :
    exceptIsOk (nft_decrease_series_copies (mkEnv "alice" "c" 0 1)
      (mkState [("1", mkSeries none ["1:1"] true [])] [("1:1", "bob")] [] []) "1" 3) = false :=
  decrease_cap_requires_finite_cap (mkEnv "alice" "c" 0 1)
    (mkState [("1", mkSeries none ["1:1"] true [])] [("1:1", "bob")] [] []) "1" 3
    (mkSeries none ["1:1"] true []) rfl rfl

/-- C7: minting an edition and reading it back through `nft_token` returns
the owner stored for that edition and metadata whose title, description,
media, reference, copies and extra fields are sourced from the parent
series' current template at read time (the per-edition record, which only
stores the mint timestamp, never overrides them). -/
theorem mint_read_roundtrip (st : Contract) (block_timestamp : Nat) (sid : TokenSeriesId)
    (receiver_id : AccountId) (ts : TokenSeries)
    (hts : alGet st.token_series_by_id sid = some ts)
    (hmint : ts.is_mintable = true)
    (hlt : ts.tokens.length < maxCopies ts)
    (hsid : seriesIdOf (sid ++ String.singleton TOKEN_DELIMETER ++
      Nat.repr (ts.tokens.length + 1)) = sid) :
    (nft_mint_series st block_timestamp sid receiver_id).map (fun r =>
      (nft_token r.2 r.1).map (fun tok? => tok?.map (fun tok =>
        (tok.owner_id,
         tok.metadata.map (fun md =>
           (md.title, md.description, md.media, md.reference, md.copies, md.extra)))))) =
    .ok (.ok (some (receiver_id, some
      (ts.metadata.title, ts.metadata.description, ts.metadata.media,
       ts.metadata.reference, ts.metadata.copies, ts.metadata.extra)))) := by
  simp only [nft_mint_series, hts]
  rw [if_neg (not_not_intro hmint), if_neg (not_not_intro hlt)]
  by_cases hfull : maxCopies ts ≤ ts.tokens.length + 1
  · rw [if_pos hfull]
    simp [Except.map, nft_token, alGet_alInsert_self, hsid]
  · rw [if_neg hfull]
    simp [Except.map, nft_token, alGet_alInsert_self, hsid]

/-- C7 witness: minting edition `1:1` of a fresh capped series and reading
it back returns owner `carol` and exactly the series template fields. -/
theorem mint_read_roundtrip_witness :
    (nft_mint_series (mkState [("1", mkSeries (some 10) [] true [])] [] [] [])
        7 "1" "carol").map (fun r =>
      (nft_token r.2 r.1).map (fun tok? => tok?.map (fun tok =>
        (tok.owner_id,
         tok.metadata.map (fun md =>
           (md.title, md.description, md.media, md.reference, md.copies, md.extra)))))) =
    .ok (.ok (some ("carol", some
      (some "Tsundere land", some "a description", some "bafymedia",
       some "bafyreference", some 10, some "extra")))) :=
  (mint_read_roundtrip (mkState [("1", mkSeries (some 10) [] true [])] [] [] [])
    7 "1" "carol" (mkSeries (some 10) [] true []) rfl rfl (by decide) (by decide)).trans rfl

/-- C9: `nft_transfer_payout` uses the owner recorded before the transfer for
the payout: with a sale balance supplied, the returned payout gives every
royalty party other than the pre-transfer owner its floor basis-point share
and gives the pre-transfer owner the `10000 - consumed` basis-point share of
the balance, while ownership moves to the receiver; with no balance, the
ownership move still happens and no payout is returned. -/
theorem transfer_payout_pre_owner (env : Env) (st : Contract) (receiver_id : AccountId)
    (token_id : TokenId) (approval_id : Option Nat)
    (own : AccountId) (ts : TokenSeries) (md : TokenMetadata)
    (hdep : env.attached_deposit = 1)
    (hown : alGet st.owner_by_id token_id = some own)
    (hts : alGet st.token_series_by_id (seriesIdOf token_id) = some ts)
    (hmd : alGet st.token_metadata_by_id token_id = some md)
    (hauth : transferAuthorized own (alGet st.approvals_by_id token_id)
      env.predecessor approval_id = true) :
    (∀ B ml, ts.royalty.length ≤ ml →
      (ts.royalty.map Prod.fst).Nodup →
      consumedPoints ts.royalty own ≤ 10000 →
      (nft_transfer_payout env st receiver_id token_id approval_id (some B) (some ml)).map
        (fun r => (r.1, alGet r.2.1.owner_by_id token_id)) =
      .ok (some (payoutList ts.royalty own B ++
        [(own, royalty_to_payout (10000 - consumedPoints ts.royalty own) B)]),
        some receiver_id))
    ∧ ((nft_transfer_payout env st receiver_id token_id approval_id none none).map
        (fun r => (r.1, alGet r.2.1.owner_by_id token_id)) =
      .ok (none, some receiver_id)) := by
  have h1 : ¬ env.attached_deposit ≠ 1 := by simp [hdep]
  constructor
  · intro B ml hlen hnd hcp
    simp only [nft_transfer_payout, if_neg h1, nft_token, hown, hts, hmd,
      internal_transfer, hauth, if_pos]
    rw [if_neg (not_not_intro hlen),
      payout_fold_char own B ts.royalty 0 [] (fun kv _ _ => rfl) hnd]
    simp only [Nat.zero_add, List.nil_append]
    rw [if_neg (not_not_intro hcp),
      alInsert_of_alGet_none (alGet_payoutList_owner ts.royalty own B)]
    simp [Except.map, alGet_alInsert_self]
  · simp only [nft_transfer_payout, if_neg h1, nft_token, hown, hts, hmd,
      internal_transfer, hauth, if_pos]
    simp [Except.map, alGet_alInsert_self]

/-- C9 witness: owner `bob` transfers `1:1` to `carol` against a sale of
1,000,000 with royalty `{alice: 1000}`: alice gets 100,000, pre-transfer
owner bob gets 900,000, and carol is the new owner; with no sale amount the
move still happens and no payout is returned. -/
theorem transfer_payout_pre_owner_witness :
    ((nft_transfer_payout (mkEnv "bob" "c" 0 1)
        (mkState [("1", mkSeries none [] true [("alice", 1000)])]
          [("1:1", "bob")] [("1:1", mkMetadata none)] [])
        "carol" "1:1" none (some 1000000) (some 10)).map
        (fun r => (r.1, alGet r.2.1.owner_by_id "1:1")) =
      .ok (some [("alice", 100000), ("bob", 900000)], some "carol"))
    ∧ ((nft_transfer_payout (mkEnv "bob" "c" 0 1)
        (mkState [("1", mkSeries none [] true [("alice", 1000)])]
          [("1:1", "bob")] [("1:1", mkMetadata none)] [])
        "carol" "1:1" none none none).map
        (fun r => (r.1, alGet r.2.1.owner_by_id "1:1")) =
      .ok (none, some "carol")) := by
  constructor
  · exact ((transfer_payout_pre_owner (mkEnv "bob" "c" 0 1)
      (mkState [("1", mkSeries none [] true [("alice", 1000)])]
        [("1:1", "bob")] [("1:1", mkMetadata none)] [])
      "carol" "1:1" none "bob" (mkSeries none [] true [("alice", 1000)])
      (mkMetadata none) rfl rfl rfl rfl rfl).1 1000000 10
      (by decide) (by decide) (by decide)).trans rfl
  · exact (transfer_payout_pre_owner (mkEnv "bob" "c" 0 1)
      (mkState [("1", mkSeries none [] true [("alice", 1000)])]
        [("1:1", "bob")] [("1:1", mkMetadata none)] [])
      "carol" "1:1" none "bob" (mkSeries none [] true [("alice", 1000)])
      (mkMetadata none) rfl rfl rfl rfl rfl).2

theorem internal_transfer_ok_shape (st : Contract) (sender_id receiver_id : AccountId)
    (token_id : TokenId) (approval_id : Option Nat)
    (po : AccountId) (aps : Option (List (AccountId × Nat))) (st1 : Contract)
    (h : internal_transfer st sender_id receiver_id token_id approval_id = .ok (po, aps, st1)) :
    alGet st.owner_by_id token_id = some po
    ∧ aps = alGet st.approvals_by_id token_id
    ∧ alGet st1.owner_by_id token_id = some receiver_id
    ∧ st1.token_series_by_id = st.token_series_by_id
    ∧ st1.transaction_fee = st.transaction_fee := by
  cases hget : alGet st.owner_by_id token_id with
  | none =>
    simp only [internal_transfer, hget] at h
    exact Except.noConfusion h
  | some owner =>
    simp only [internal_transfer, hget] at h
    split at h
    · injection h with h2
      injection h2 with ha hb
      injection hb with hb hc
      subst ha hb hc
      exact ⟨rfl, rfl, alGet_alInsert_self _ _ _, rfl, rfl⟩
    · exact Except.noConfusion h

/-- C4: when the receiver's hook answers reject or its execution fails, and
the edition's current owner at resolve time still equals the post-phase-1
receiver, the resolve step restores the pre-transfer owner, restores the
prior approval table, and emits the reversing transfer record (receiver to
prior owner); the resolve step aborts for any caller other than the contract
itself (`#[private]`); and phase 1 (`nft_transfer_call`) is what captures
that prior owner and prior approval table while making the receiver the
owner. -/
theorem transfer_call_rollback (env2 : Env) (st2 : Contract) (prev receiver : AccountId)
    (tid : TokenId) (aps : List (AccountId × Nat)) (outcome : HookOutcome)
    (hpriv : env2.predecessor = env2.current_account)
    (hout : outcome ≠ HookOutcome.accept)
    (hown : alGet st2.owner_by_id tid = some receiver) :
    ((nft_resolve_transfer env2 st2 prev receiver tid (some aps) outcome).map
      (fun r => (r.1, alGet r.2.1.owner_by_id tid, alGet r.2.1.approvals_by_id tid, r.2.2)) =
      .ok (false, some prev, some aps,
        [{ old_owner_id := receiver, new_owner_id := prev, token_ids := [tid],
           memo := none, authorized_id := none }]))
    ∧ (∀ env3 : Env, env3.predecessor ≠ env3.current_account →
      exceptIsOk (nft_resolve_transfer env3 st2 prev receiver tid (some aps) outcome) = false)
    ∧ (∀ env1 st aid memo msg r,
      nft_transfer_call env1 st receiver tid aid memo msg = .ok r →
      alGet st.owner_by_id tid = some r.1
      ∧ r.2.1 = alGet st.approvals_by_id tid
      ∧ alGet r.2.2.1.owner_by_id tid = some receiver) := by
  refine ⟨?_, ?_, ?_⟩
  · have hcase : outcome = HookOutcome.reject ∨ outcome = HookOutcome.failed := by
      cases outcome
      · exact absurd rfl hout
      · exact Or.inl rfl
      · exact Or.inr rfl
    rcases hcase with h | h <;>
      subst h <;>
      simp [nft_resolve_transfer, if_neg (not_not_intro hpriv),
        tokens_nft_resolve_transfer, hown, Except.map, alGet_alInsert_self]
  · intro env3 h3
    simp [nft_resolve_transfer, if_pos h3, exceptIsOk]
  · intro env1 st aid memo msg r h
    by_cases h1 : env1.attached_deposit ≠ 1
    · simp only [nft_transfer_call, if_pos h1] at h
      exact Except.noConfusion h
    · simp only [nft_transfer_call, if_neg h1] at h
      cases hit : internal_transfer st env1.predecessor receiver tid aid with
      | error e =>
        rw [hit] at h
        exact Except.noConfusion h
      | ok triple =>
        obtain ⟨po, aps2, st1⟩ := triple
        rw [hit] at h
        injection h with h2
        subst h2
        obtain ⟨ha, hb, hc, _, _⟩ :=
          internal_transfer_ok_shape st env1.predecessor receiver tid aid po aps2 st1 hit
        exact ⟨ha, hb, hc⟩

/-- C4 witness: after a phase-1 transfer of `1:1` to `bob` whose prior owner
was `alice` with approval table `{marketplace: 7}`, a reject resolved by the
contract itself restores alice as owner with that approval table and logs
the reversing record, while an external caller cannot invoke the resolve
step at all. -/
theorem transfer_call_rollback_witness :
    ((nft_resolve_transfer (mkEnv "c" "c" 0 0) (mkState [] [("1:1", "bob")] [] [])
        "alice" "bob" "1:1" (some [("marketplace", 7)]) HookOutcome.reject).map
      (fun r => (r.1, alGet r.2.1.owner_by_id "1:1",
        alGet r.2.1.approvals_by_id "1:1", r.2.2)) =
      .ok (false, some "alice", some [("marketplace", 7)],
        [{ old_owner_id := "bob", new_owner_id := "alice", token_ids := ["1:1"],
           memo := none, authorized_id := none }]))
    ∧ exceptIsOk (nft_resolve_transfer (mkEnv "mallory" "c" 0 0)
        (mkState [] [("1:1", "bob")] [] []) "alice" "bob" "1:1"
        (some [("marketplace", 7)]) HookOutcome.reject) = false := by
  constructor
  · exact (transfer_call_rollback (mkEnv "c" "c" 0 0) (mkState [] [("1:1", "bob")] [] [])
      "alice" "bob" "1:1" [("marketplace", 7)] HookOutcome.reject rfl (by decide) rfl).1
  · exact (transfer_call_rollback (mkEnv "c" "c" 0 0) (mkState [] [("1:1", "bob")] [] [])
      "alice" "bob" "1:1" [("marketplace", 7)] HookOutcome.reject rfl (by decide) rfl).2.1
      (mkEnv "mallory" "c" 0 0) (by decide)

theorem calc_fee_ok_shape (st : Contract) (bt fee : Nat) (st1 : Contract)
    (h : calculate_current_transaction_fee st bt = .ok (fee, st1)) :
    st1.token_series_by_id = st.token_series_by_id := by
  unfold calculate_current_transaction_fee at h
  split at h
  · injection h with h2
    injection h2 with ha hb
    subst hb
    rfl
  · split at h
    · exact Except.noConfusion h
    · split at h
      · injection h with h2
        injection h2 with ha hb
        subst hb
        rfl
      · injection h with h2
        injection h2 with ha hb
        subst hb
        rfl

theorem resolve_preserves_series (st : Contract) (prev recv : AccountId) (tid : TokenId)
    (approved : Option (List (AccountId × Nat))) (outcome : HookOutcome) :
    (tokens_nft_resolve_transfer st prev recv tid approved outcome).2.token_series_by_id
      = st.token_series_by_id := by
  cases outcome <;>
    simp only [tokens_nft_resolve_transfer] <;>
    cases halGet : alGet st.owner_by_id tid <;>
    simp only [halGet] <;>
    split_ifs <;>
    cases approved <;>
    rfl

theorem create_ok_shape (env : Env) (st : Contract) (creator_id : Option AccountId)
    (md : TokenMetadata) (price : Option Nat) (royalty : Option (List (AccountId × Nat)))
    (j : TokenSeriesJson) (st1 : Contract)
    (h : nft_create_series env st creator_id md price royalty = .ok (j, st1)) :
    st1.token_series_by_id = alInsert st.token_series_by_id
      (Nat.repr (st.token_series_by_id.length + 1))
      { metadata := md, creator_id := env.predecessor, tokens := [],
        price := price, is_mintable := true, royalty := royalty.getD [] }
    ∧ (royalty.getD []).length ≤ 10 ∧ valsSum (royalty.getD []) ≤ 5000 := by
  simp only [nft_create_series] at h
  split_ifs at h with h1 h2 h3 h4 h5 h6 h7
  cases hcalc : calculate_current_transaction_fee
      { st with token_series_by_id := (alInsert st.token_series_by_id
          (Nat.repr (st.token_series_by_id.length + 1))
          { metadata := md, creator_id := env.predecessor, tokens := [],
            price := price, is_mintable := true, royalty := royalty.getD [] }) }
      env.block_timestamp with
  | error e =>
    rw [hcalc] at h
    exact Except.noConfusion h
  | ok p =>
    obtain ⟨fee, st2⟩ := p
    rw [hcalc] at h
    injection h with h2
    injection h2 with ha hb
    subst hb
    refine ⟨?_, by omega, by omega⟩
    exact calc_fee_ok_shape _ _ _ _ hcalc

theorem mint_ok_shape (st : Contract) (bt : Nat) (sid : TokenSeriesId) (recv : AccountId)
    (tid : TokenId) (st1 : Contract)
    (h : nft_mint_series st bt sid recv = .ok (tid, st1)) :
    ∃ ts ts1, alGet st.token_series_by_id sid = some ts
      ∧ st1.token_series_by_id = alInsert st.token_series_by_id sid ts1
      ∧ ts1.royalty = ts.royalty := by
  cases hget : alGet st.token_series_by_id sid with
  | none =>
    simp only [nft_mint_series, hget] at h
    exact Except.noConfusion h
  | some ts =>
    simp only [nft_mint_series, hget] at h
    split_ifs at h
    all_goals
      first
      | exact Except.noConfusion h
      | (injection h with h2
         injection h2 with ha hb
         subst hb
         exact ⟨ts, _, rfl, rfl, rfl⟩)

theorem set_non_mintable_ok_shape (env : Env) (st : Contract) (sid : TokenSeriesId)
    (st1 : Contract) (h : nft_set_series_non_mintable env st sid = .ok st1) :
    ∃ ts ts1, alGet st.token_series_by_id sid = some ts
      ∧ st1.token_series_by_id = alInsert st.token_series_by_id sid ts1
      ∧ ts1.royalty = ts.royalty := by
  cases hget : alGet st.token_series_by_id sid with
  | none =>
    simp only [nft_set_series_non_mintable, hget] at h
    split_ifs at h
  | some ts =>
    simp only [nft_set_series_non_mintable, hget] at h
    split_ifs at h
    all_goals
      first
      | exact Except.noConfusion h
      | (injection h with hb
         subst hb
         exact ⟨ts, _, rfl, rfl, rfl⟩)

theorem decrease_ok_shape (env : Env) (st : Contract) (sid : TokenSeriesId) (d : Nat)
    (c : Nat) (st1 : Contract)
    (h : nft_decrease_series_copies env st sid d = .ok (c, st1)) :
    ∃ ts ts1, alGet st.token_series_by_id sid = some ts
      ∧ st1.token_series_by_id = alInsert st.token_series_by_id sid ts1
      ∧ ts1.royalty = ts.royalty := by
  cases hget : alGet st.token_series_by_id sid with
  | none =>
    simp only [nft_decrease_series_copies, hget] at h
    split_ifs at h
  | some ts =>
    simp only [nft_decrease_series_copies, hget] at h
    split_ifs at h
    all_goals
      split at h
      all_goals
        first
        | exact Except.noConfusion h
        | (split_ifs at h
           all_goals
             first
             | exact Except.noConfusion h
             | (injection h with h2
                injection h2 with ha hb
                subst hb
                exact ⟨ts, _, rfl, rfl, rfl⟩))

theorem set_price_ok_shape (env : Env) (st : Contract) (sid : TokenSeriesId)
    (price : Option Nat) (p : Option Nat) (st1 : Contract)
    (h : nft_set_series_price env st sid price = .ok (p, st1)) :
    ∃ ts ts1, alGet st.token_series_by_id sid = some ts
      ∧ st1.token_series_by_id = alInsert st.token_series_by_id sid ts1
      ∧ ts1.royalty = ts.royalty := by
  cases hget : alGet st.token_series_by_id sid with
  | none =>
    simp only [nft_set_series_price, hget] at h
    split_ifs at h
  | some ts =>
    simp only [nft_set_series_price, hget] at h
    split_ifs at h
    cases hcalc : calculate_current_transaction_fee
        { st with token_series_by_id := (alInsert st.token_series_by_id sid
            { metadata := ts.metadata, creator_id := ts.creator_id, tokens := ts.tokens,
              price := price, is_mintable := ts.is_mintable, royalty := ts.royalty }) }
        env.block_timestamp with
    | error e =>
      rw [hcalc] at h
      exact Except.noConfusion h
    | ok q =>
      obtain ⟨fee, st2⟩ := q
      rw [hcalc] at h
      injection h with h2
      injection h2 with ha hb
      subst hb
      refine ⟨ts,
        { metadata := ts.metadata
          creator_id := ts.creator_id
          tokens := ts.tokens
          price := price
          is_mintable := ts.is_mintable
          royalty := ts.royalty },
        rfl, ?_, rfl⟩
      exact calc_fee_ok_shape _ _ _ _ hcalc

theorem set_fee_preserves_series (env : Env) (st : Contract) (next_fee : Nat)
    (start_time : Option TimestampSec) (st1 : Contract)
    (h : set_transaction_fee env st next_fee start_time = .ok st1) :
    st1.token_series_by_id = st.token_series_by_id := by
  simp only [set_transaction_fee] at h
  split_ifs at h
  split at h
  · injection h with hb
    subst hb
    rfl
  · split_ifs at h
    injection h with hb
    subst hb
    rfl

theorem royaltyOk_alInsert {m : List (TokenSeriesId × TokenSeries)} {k : TokenSeriesId}
    {ts1 : TokenSeries} (hinv : ∀ sid ts, alGet m sid = some ts → royaltyOk ts)
    (hok : royaltyOk ts1) :
    ∀ sid ts, alGet (alInsert m k ts1) sid = some ts → royaltyOk ts := by
  intro sid ts hget
  rw [alGet_alInsert] at hget
  by_cases hk : k = sid
  · rw [if_pos hk] at hget
    injection hget with hh
    subst hh
    exact hok
  · rw [if_neg hk] at hget
    exact hinv sid ts hget

/-- C5: every series record reachable through any sequence of the modelled
operations has a royalty table with at most 10 entries whose basis-point
values sum to at most 5000; and `nft_create_series` returns successfully
only when the supplied royalty table satisfies those bounds (otherwise it
aborts, writing nothing — an aborted call returns no state). -/
theorem series_royalty_invariant :
    (∀ st, Reachable st → seriesInv st)
    ∧ (∀ env st creator_id md price r out,
      nft_create_series env st creator_id md price (some r) = .ok out →
      r.length ≤ 10 ∧ valsSum r ≤ 5000) := by
  constructor
  · intro st h
    induction h with
    | init o t f =>
      intro sid ts hget
      simp [Contract.new, alGet] at hget
    | create hr hok ih =>
      obtain ⟨hmap, hlen, hsum⟩ := create_ok_shape _ _ _ _ _ _ _ _ hok
      intro sid ts hget
      rw [hmap] at hget
      exact royaltyOk_alInsert ih ⟨hlen, hsum⟩ sid ts hget
    | mint hr hok ih =>
      obtain ⟨ts0, ts1, hget0, hmap, hroy⟩ := mint_ok_shape _ _ _ _ _ _ hok
      intro sid ts hget
      rw [hmap] at hget
      refine royaltyOk_alInsert ih ?_ sid ts hget
      unfold royaltyOk
      rw [hroy]
      exact ih _ _ hget0
    | setNonMintable hr hok ih =>
      obtain ⟨ts0, ts1, hget0, hmap, hroy⟩ := set_non_mintable_ok_shape _ _ _ _ hok
      intro sid ts hget
      rw [hmap] at hget
      refine royaltyOk_alInsert ih ?_ sid ts hget
      unfold royaltyOk
      rw [hroy]
      exact ih _ _ hget0
    | decreaseCopies hr hok ih =>
      obtain ⟨ts0, ts1, hget0, hmap, hroy⟩ := decrease_ok_shape _ _ _ _ _ _ hok
      intro sid ts hget
      rw [hmap] at hget
      refine royaltyOk_alInsert ih ?_ sid ts hget
      unfold royaltyOk
      rw [hroy]
      exact ih _ _ hget0
    | setPrice hr hok ih =>
      obtain ⟨ts0, ts1, hget0, hmap, hroy⟩ := set_price_ok_shape _ _ _ _ _ _ hok
      intro sid ts hget
      rw [hmap] at hget
      refine royaltyOk_alInsert ih ?_ sid ts hget
      unfold royaltyOk
      rw [hroy]
      exact ih _ _ hget0
    | setFee hr hok ih =>
      intro sid ts hget
      rw [set_fee_preserves_series _ _ _ _ _ hok] at hget
      exact ih sid ts hget
    | feeAdvance hr hok ih =>
      intro sid ts hget
      rw [calc_fee_ok_shape _ _ _ _ hok] at hget
      exact ih sid ts hget
    | transferStep hr hok ih =>
      intro sid ts hget
      rw [(internal_transfer_ok_shape _ _ _ _ _ _ _ _ hok).2.2.2.1] at hget
      exact ih sid ts hget
    | resolveStep hr ih =>
      intro sid ts hget
      rw [resolve_preserves_series] at hget
      exact ih sid ts hget
  · intro env st creator_id md price r out hok
    obtain ⟨hmap, hlen, hsum⟩ := create_ok_shape _ _ _ _ _ _ _ _ hok
    constructor
    · simpa using hlen
    · simpa using hsum

/-- C5 witness: the freshly initialized contract is reachable and satisfies
the royalty invariant for every registered series. -/
theorem series_royalty_invariant_witness :
    seriesInv (Contract.new "o" "t" 300) :=
  (series_royalty_invariant).1 (Contract.new "o" "t" 300) (Reachable.init "o" "t" 300)
